import Mathlib

/-!
Verification development for `hsML/interaction_matrix.py`.

The Python class `interaction_matrix` builds a dense symmetric matrix of
Stark or Zeeman interaction terms over a basis of quantum states, with an
in-memory cache, an optional on-disk cache, and closed-form angular-overlap
formulas.  Machine floats are modelled by real numbers; the external
collaborators (`radial_overlap` from `numerov`, the filesystem, and Python's
float formatting) are parameters of the model.
-/

open scoped Classical

namespace hsML

noncomputable section

/-- Dense real matrix indexed by natural row/column positions
(models the `numpy` array `self.matrix`). -/
abbrev Mat : Type := ℕ → ℕ → ℝ

/-- A basis state exposing the quantum numbers read by the interaction
formulas: principal `n`, effective principal `n_eff`, orbital `L`, magnetic
`ML`.  Equality is full attribute match, as in Python. -/
structure QuantumState where
  n : ℤ
  n_eff : ℝ
  L : ℤ
  ML : ℤ

instance : Inhabited QuantumState :=
  ⟨⟨0, 0, 0, 0⟩⟩

/-- The `basis.params` record, used only to derive cache filenames. -/
structure BasisParams where
  n_min : ℤ
  n_max : ℤ
  L_max : ℤ
  S : ℤ
  ML : ℤ
  ML_max : ℤ

/-- The basis object: ordered sequence of states plus filename parameters. -/
structure Basis where
  states : List QuantumState
  params : BasisParams

/-- The keyword-argument bag consumed by the methods, with the defaults the
source supplies at each `kwargs.get`. -/
structure Kwargs where
  cache_matrices : Bool := true
  load_matrices : Bool := false
  save_matrices : Bool := false
  matrices_dir : String := "./"
  field_angle : ℝ := 0
  p : ℝ := 1
  dM_allow : List ℤ := [0]

/-- `np.mod x y = x - y * ⌊x / y⌋` (sign follows the divisor). -/
def npMod (x y : ℝ) : ℝ := x - y * ⌊x / y⌋

/-- The body of the first (parallel-field) branch of `angular_overlap`:
the `dM`/`dM_allow`-gated chain of `dL = ±1` closed-form terms, each
weighted by `frac_para = cos²`.  Transcribed clause by clause from the
source. -/
def paraBranch (L M dL dM : ℤ) (dM_allow : List ℤ) (frac_para : ℝ) : ℝ :=
  if dM = 0 ∧ dM ∈ dM_allow then
    if dL = 1 then
      frac_para * Real.sqrt ((((L : ℝ) + 1) ^ 2 - (M : ℝ) ^ 2) /
        ((2 * (L : ℝ) + 3) * (2 * (L : ℝ) + 1)))
    else if dL = -1 then
      frac_para * Real.sqrt (((L : ℝ) ^ 2 - (M : ℝ) ^ 2) /
        ((2 * (L : ℝ) + 1) * (2 * (L : ℝ) - 1)))
    else 0
  else if dM = 1 ∧ dM ∈ dM_allow then
    if dL = 1 then
      frac_para * (-Real.sqrt ((((L : ℝ) + (M : ℝ) + 2) * ((L : ℝ) + (M : ℝ) + 1)) /
        (2 * (2 * (L : ℝ) + 3) * (2 * (L : ℝ) + 1))))
    else if dL = -1 then
      frac_para * (Real.sqrt ((((L : ℝ) - (M : ℝ)) * ((L : ℝ) - (M : ℝ) - 1)) /
        (2 * (2 * (L : ℝ) + 1) * (2 * (L : ℝ) - 1))))
    else 0
  else if dM = -1 ∧ dM ∈ dM_allow then
    if dL = 1 then
      frac_para * (Real.sqrt ((((L : ℝ) - (M : ℝ) + 2) * ((L : ℝ) - (M : ℝ) + 1)) /
        (2 * (2 * (L : ℝ) + 3) * (2 * (L : ℝ) + 1))))
    else if dL = -1 then
      frac_para * (-Real.sqrt ((((L : ℝ) + (M : ℝ)) * ((L : ℝ) + (M : ℝ) - 1)) /
        (2 * (2 * (L : ℝ) + 1) * (2 * (L : ℝ) - 1))))
    else 0
  else 0

/-- The body of the second (perpendicular-field) branch of `angular_overlap`:
gated only on `dM = ±1` (never on `dM_allow`), each term weighted by
`frac_perp = sin²`.  Transcribed clause by clause from the source. -/
def perpBranch (L M dL dM : ℤ) (frac_perp : ℝ) : ℝ :=
  if dM = 1 then
    if dL = 1 then
      frac_perp * ((0.5 * ((-1 : ℝ)) ^ (M - 2 * L)) *
        Real.sqrt ((((L : ℝ) + (M : ℝ) + 1) * ((L : ℝ) + (M : ℝ) + 2)) /
          ((2 * (L : ℝ) + 1) * (2 * (L : ℝ) + 3))))
    else if dL = -1 then
      frac_perp * (-(0.5 * ((-1 : ℝ)) ^ (-M + 2 * L)) *
        Real.sqrt ((((L : ℝ) - (M : ℝ) - 1) * ((L : ℝ) - (M : ℝ))) /
          ((2 * (L : ℝ) - 1) * (2 * (L : ℝ) + 1))))
    else 0
  else if dM = -1 then
    if dL = 1 then
      frac_perp * ((0.5 * ((-1 : ℝ)) ^ (M - 2 * L)) *
        Real.sqrt ((((L : ℝ) - (M : ℝ) + 1) * ((L : ℝ) - (M : ℝ) + 2)) /
          ((2 * (L : ℝ) + 1) * (2 * (L : ℝ) + 3))))
    else if dL = -1 then
      frac_perp * (-(0.5 * ((-1 : ℝ)) ^ (-M + 2 * L)) *
        Real.sqrt ((((L : ℝ) + (M : ℝ) - 1) * ((L : ℝ) + (M : ℝ))) /
          ((2 * (L : ℝ) - 1) * (2 * (L : ℝ) + 1))))
    else 0
  else 0

/-- `angular_overlap(L_1, L_2, M_1, M_2, **kwargs)`: starts from `0.0`, adds
the parallel branch unless `np.mod(field_angle, 180) == 90`, then adds the
perpendicular branch unless `np.mod(field_angle, 180) == 0`. -/
def angular_overlap (L_1 L_2 M_1 M_2 : ℤ) (kw : Kwargs) : ℝ :=
  let dL := L_2 - L_1
  let dM := M_2 - M_1
  let L := L_1
  let M := M_1
  let frac_para := Real.cos (kw.field_angle * (Real.pi / 180)) ^ 2
  let frac_perp := Real.sin (kw.field_angle * (Real.pi / 180)) ^ 2
  let overlap : ℝ := 0
  let overlap := if npMod kw.field_angle 180 = 90 then overlap
    else overlap + paraBranch L M dL dM kw.dM_allow frac_para
  let overlap := if npMod kw.field_angle 180 = 0 then overlap
    else overlap + perpBranch L M dL dM frac_perp
  overlap

/-- `stark_interaction(state_1, state_2, **kwargs)`.  The external
`radial_overlap` collaborator is a parameter of the model. -/
def stark_interaction (radial_overlap : ℝ → ℤ → ℝ → ℤ → ℝ → ℝ)
    (state_1 state_2 : QuantumState) (kw : Kwargs) : ℝ :=
  let dL := state_2.L - state_1.L
  let dM := state_2.ML - state_1.ML
  if |dL| = 1 ∧ |dM| ≤ 1 then
    angular_overlap state_1.L state_2.L state_1.ML state_2.ML kw *
      radial_overlap state_1.n_eff state_1.L state_2.n_eff state_2.L kw.p
  else 0

/-- `zeeman_interaction(state_1, state_2)`: `state_1.ML` on equal states,
`0.0` otherwise. -/
def zeeman_interaction (state_1 state_2 : QuantumState) : ℝ :=
  if state_1 = state_2 then (state_1.ML : ℝ) else 0

/-- The builder object: lower-cased interaction type string, the basis, and
the in-memory matrix cache (`None` before first computation). -/
structure interaction_matrix where
  type : String
  basis : Basis
  matrix : Option Mat

/-- `interaction_term`: dispatch on the (lower-cased) type string; unknown
strings raise `Exception("Interaction term '...' is not recognised.")`,
modelled as `Except.error`. -/
def interaction_term (radial_overlap : ℝ → ℤ → ℝ → ℤ → ℝ → ℝ)
    (ty : String) (state_1 state_2 : QuantumState) (kw : Kwargs) :
    Except String ℝ :=
  if ty = "stark" then Except.ok (stark_interaction radial_overlap state_1 state_2 kw)
  else if ty = "zeeman" then Except.ok (zeeman_interaction state_1 state_2)
  else Except.error ("Interaction term '" ++ ty ++ "' is not recognised.")

/-- One in-place assignment `matrix[r][c] = v`. -/
def writeEntry (M : Mat) (r c : ℕ) (v : ℝ) : Mat :=
  fun a b => if a = r ∧ b = c then v else M a b

/-- One iteration of the population loop at pair `(i, j)`: if an exception
has already been raised nothing more happens; otherwise the term is
computed, and on success `matrix[i][j] = term; matrix[j][i] = matrix[i][j]`
is executed, while a raised exception aborts with the matrix as written so
far. -/
def termStep (termf : ℕ → ℕ → Except String ℝ)
    (acc : Mat × Option String) (q : ℕ × ℕ) : Mat × Option String :=
  match acc.2 with
  | some _ => acc
  | none =>
    match termf q.1 q.2 with
    | Except.error e => (acc.1, some e)
    | Except.ok v => (writeEntry (writeEntry acc.1 q.1 q.2 v) q.2 q.1 v, none)

/-- The index pairs visited by `for i in range(N): for j in range(i, N)`,
in loop order. -/
def pairs (N : ℕ) : List (ℕ × ℕ) :=
  (List.range N).flatMap (fun i => (List.range' i (N - i)).map (fun j => (i, j)))

/-- The full population loop: start from `np.zeros([N, N])` and run
`termStep` over every upper-triangle pair.  Returns the matrix together
with the exception, if one was raised. -/
def computeLoop (termf : ℕ → ℕ → Except String ℝ) (N : ℕ) :
    Mat × Option String :=
  (pairs N).foldl (termStep termf) ((fun _ _ => 0), none)

/-- Observable side effects of one `populate_interaction_matrix` call. -/
structure Effects where
  printed_cached : Bool := false
  loaded : Bool := false
  computed : Bool := false
  saved : Bool := false
  error : Option String := none

/-- `filename(self)`: the basis-parameter part of the cache key. -/
def interaction_matrix.filename (self : interaction_matrix) : String :=
  "n=" ++ toString self.basis.params.n_min ++ "-" ++ toString self.basis.params.n_max ++ "_" ++
  "L_max=" ++ toString self.basis.params.L_max ++ "_" ++
  "S=" ++ toString self.basis.params.S ++ "_" ++
  "ML=" ++ toString self.basis.params.ML ++ "_" ++
  "ML_max=" ++ toString self.basis.params.ML_max

/-- The name `save_matrix` passes to `np.savez_compressed` (relative to the
directory): `type + '_' + filename()`, plus `_angle_<field_angle>` for Stark.
`fmt` models Python's `'{}'.format` on the float field angle. -/
def save_matrix_name (fmt : ℝ → String) (self : interaction_matrix) (kw : Kwargs) : String :=
  let filename := self.type ++ "_" ++ self.filename
  let filename := if self.type = "stark" then
    filename ++ "_angle_" ++ fmt kw.field_angle else filename
  filename

/-- `np.savez_compressed` appends the `.npz` extension to the file name when
it is not already present (documented numpy behaviour; numpy is an external
collaborator of the source).  The suffix test is modelled on the character
list of the name. -/
def savezName (s : String) : String :=
  if ".npz".data.isSuffixOf s.data then s else s ++ ".npz"

/-- The file name `load_matrix` opens (relative to the directory): same key
as `save_matrix` with `.npz` appended explicitly. -/
def load_matrix_name (fmt : ℝ → String) (self : interaction_matrix) (kw : Kwargs) : String :=
  let filename := self.type ++ "_" ++ self.filename
  let filename := if self.type = "stark" then
    filename ++ "_angle_" ++ fmt kw.field_angle else filename
  filename ++ ".npz"

/-- The file name `check_matrix` tests for existence (relative to the
directory): built exactly as in `load_matrix`. -/
def check_matrix_name (fmt : ℝ → String) (self : interaction_matrix) (kw : Kwargs) : String :=
  let filename := self.type ++ "_" ++ self.filename
  let filename := if self.type = "stark" then
    filename ++ "_angle_" ++ fmt kw.field_angle else filename
  filename ++ ".npz"

/-- `check_matrix`: `os.path.isfile(load_dir + filename)`, against an
abstract filesystem `disk` mapping paths to stored matrices. -/
def check_matrix (fmt : ℝ → String) (self : interaction_matrix) (kw : Kwargs)
    (disk : String → Option Mat) : Bool :=
  (disk (kw.matrices_dir ++ check_matrix_name fmt self kw)).isSome

/-- `load_matrix`: read `mat['matrix']` from the archive at
`load_dir + filename`. -/
def load_matrix (fmt : ℝ → String) (self : interaction_matrix) (kw : Kwargs)
    (disk : String → Option Mat) : Mat :=
  (disk (kw.matrices_dir ++ load_matrix_name fmt self kw)).getD (fun _ _ => 0)

/-- `populate_interaction_matrix(self, **kwargs)`: reuse the held matrix when
`cache_matrices` is true, otherwise load from disk when requested and
possible, otherwise run the O(N²) loop (and save afterwards when requested
and no exception was raised).  Returns the updated object and the observable
effects; a raised exception appears in `Effects.error` with the matrix field
left as the loop wrote it. -/
def populate_interaction_matrix (radial_overlap : ℝ → ℤ → ℝ → ℤ → ℝ → ℝ)
    (fmt : ℝ → String) (disk : String → Option Mat)
    (self : interaction_matrix) (kw : Kwargs) :
    interaction_matrix × Effects :=
  let cache := kw.cache_matrices
  if self.matrix = none ∨ cache = false then
    if kw.load_matrices && check_matrix fmt self kw disk then
      ({ self with matrix := some (load_matrix fmt self kw disk) },
       { loaded := true })
    else
      let N := self.basis.states.length
      let termf := fun i j => interaction_term radial_overlap self.type
        (self.basis.states.getD i default) (self.basis.states.getD j default) kw
      let res := computeLoop termf N
      ({ self with matrix := some res.1 },
       { computed := true,
         saved := res.2.isNone && kw.save_matrices,
         error := res.2 })
  else
    (self, { printed_cached := true })

/-- The constructor `interaction_matrix(matrix_type, basis, **kwargs)`:
lower-case the type, start with no matrix, and populate immediately. -/
def interaction_matrix.init (radial_overlap : ℝ → ℤ → ℝ → ℤ → ℝ → ℝ)
    (fmt : ℝ → String) (disk : String → Option Mat)
    (matrix_type : String) (basis : Basis) (kw : Kwargs) :
    interaction_matrix × Effects :=
  populate_interaction_matrix radial_overlap fmt disk
    ⟨matrix_type.toLower, basis, none⟩ kw

/-- The set of matrix cells assigned by the loop body at pair `q`:
`matrix[q.1][q.2]` and its mirror `matrix[q.2][q.1]`. -/
def writesAt (q : ℕ × ℕ) (a b : ℕ) : Prop :=
  (a = q.1 ∧ b = q.2) ∨ (a = q.2 ∧ b = q.1)

/-- Example parameter record for concrete instances. -/
def paramsEx : BasisParams := ⟨1, 5, 2, 0, 0, 1⟩

/-- Example state |n=5, n_eff=5, L=0, ML=0⟩. -/
def sEx0 : QuantumState := ⟨5, 5, 0, 0⟩

/-- Example state |n=5, n_eff=5, L=1, ML=0⟩. -/
def sEx1 : QuantumState := ⟨5, 5, 1, 0⟩

/-- Example state |n=5, n_eff=5, L=2, ML=0⟩. -/
def sEx2 : QuantumState := ⟨5, 5, 2, 0⟩

/-- Example state |n=5, n_eff=5, L=1, ML=1⟩. -/
def sEx4 : QuantumState := ⟨5, 5, 1, 1⟩

/-- Example two-state basis. -/
def basisEx : Basis := ⟨[sEx0, sEx1], paramsEx⟩

/-- Example one-state basis. -/
def basisOne : Basis := ⟨[sEx0], paramsEx⟩

/-- Example empty basis. -/
def emptyBasis : Basis := ⟨[], paramsEx⟩

/-- Example (constant) radial-overlap collaborator. -/
def roEx : ℝ → ℤ → ℝ → ℤ → ℝ → ℝ := fun _ _ _ _ _ => 1

/-- Example float formatter. -/
def fmtEx : ℝ → String := fun _ => "0.0"

/-- Example empty filesystem. -/
def diskEx : String → Option Mat := fun _ => none

/-- Example builder with an unknown interaction kind and one state. -/
def selfFoo : interaction_matrix := ⟨"foo", basisOne, none⟩

/-- Example builder already holding a matrix. -/
def selfCached : interaction_matrix := ⟨"stark", basisEx, some (fun _ _ => 0)⟩

end

end hsML

namespace hsML

lemma mem_pairs (N : ℕ) (q : ℕ × ℕ) : q ∈ pairs N ↔ q.1 ≤ q.2 ∧ q.2 < N := by
  obtain ⟨a, b⟩ := q
  simp only [pairs, List.mem_flatMap, List.mem_map, List.mem_range, List.mem_range'_1]
  constructor
  · rintro ⟨i, hi, j, ⟨hij, hjN⟩, h⟩
    cases h
    exact ⟨hij, by omega⟩
  · rintro ⟨hab, hbN⟩
    exact ⟨a, by omega, b, ⟨hab, by omega⟩, rfl⟩

lemma termStep_some (termf : ℕ → ℕ → Except String ℝ) (M : Mat) (e : String)
    (q : ℕ × ℕ) : termStep termf (M, some e) q = (M, some e) := rfl

lemma termStep_ok (termf : ℕ → ℕ → Except String ℝ) (M : Mat) (q : ℕ × ℕ)
    (v : ℝ) (h : termf q.1 q.2 = Except.ok v) :
    termStep termf (M, none) q =
      (writeEntry (writeEntry M q.1 q.2 v) q.2 q.1 v, none) := by
  simp [termStep, h]

lemma termStep_err (termf : ℕ → ℕ → Except String ℝ) (M : Mat) (q : ℕ × ℕ)
    (e : String) (h : termf q.1 q.2 = Except.error e) :
    termStep termf (M, none) q = (M, some e) := by
  simp [termStep, h]

lemma foldl_termStep_absorb (termf : ℕ → ℕ → Except String ℝ)
    (l : List (ℕ × ℕ)) (M : Mat) (e : String) :
    l.foldl (termStep termf) (M, some e) = (M, some e) := by
  induction l with
  | nil => rfl
  | cons q t ih =>
    rw [List.foldl_cons, termStep_some]
    exact ih

lemma foldl_termStep_frame (termf : ℕ → ℕ → Except String ℝ)
    (l : List (ℕ × ℕ)) (acc : Mat × Option String) (a b : ℕ)
    (h : ∀ q ∈ l, ¬ writesAt q a b) :
    (l.foldl (termStep termf) acc).1 a b = acc.1 a b := by
  induction l generalizing acc with
  | nil => rfl
  | cons q t ih =>
    rw [List.foldl_cons]
    rw [ih _ (fun p hp => h p (List.mem_cons_of_mem _ hp))]
    have hq := h q (List.mem_cons_self q t)
    obtain ⟨M0, o0⟩ := acc
    cases o0 with
    | some e => rw [termStep_some]
    | none =>
      rcases h3 : termf q.1 q.2 with e | v
      · rw [termStep_err termf M0 q e h3]
      · rw [termStep_ok termf M0 q v h3]
        have h1 : ¬ (a = q.1 ∧ b = q.2) := fun hx => hq (Or.inl hx)
        have h2 : ¬ (a = q.2 ∧ b = q.1) := fun hx => hq (Or.inr hx)
        simp [writeEntry, h1, h2]

lemma foldl_termStep_symm (termf : ℕ → ℕ → Except String ℝ)
    (l : List (ℕ × ℕ)) (acc : Mat × Option String)
    (h : ∀ x y, acc.1 x y = acc.1 y x) :
    ∀ x y, (l.foldl (termStep termf) acc).1 x y =
      (l.foldl (termStep termf) acc).1 y x := by
  induction l generalizing acc with
  | nil => exact h
  | cons q t ih =>
    rw [List.foldl_cons]
    apply ih
    obtain ⟨M0, o0⟩ := acc
    cases o0 with
    | some e => exact h
    | none =>
      rcases h3 : termf q.1 q.2 with e | v
      · rw [termStep_err termf M0 q e h3]; exact h
      · rw [termStep_ok termf M0 q v h3]
        intro x y
        simp only [writeEntry]
        split_ifs <;> first | rfl | exact h x y | omega

lemma writeEntry_writes (M : Mat) (q : ℕ × ℕ) (w : ℝ) (a b : ℕ)
    (h : writesAt q a b) :
    (writeEntry (writeEntry M q.1 q.2 w) q.2 q.1 w) a b = w := by
  rcases h with ⟨h1, h2⟩ | ⟨h1, h2⟩ <;> subst h1 <;> subst h2 <;>
    simp only [writeEntry] <;> split_ifs <;> first | rfl | tauto

lemma foldl_termStep_cell (termf : ℕ → ℕ → Except String ℝ)
    (g : ℕ → ℕ → ℝ) (hok : ∀ i j, termf i j = Except.ok (g i j))
    (v : ℝ) (a b : ℕ) :
    ∀ (l : List (ℕ × ℕ)) (M0 : Mat),
      (∀ q ∈ l, writesAt q a b → g q.1 q.2 = v) →
      (∃ q ∈ l, writesAt q a b) →
      (l.foldl (termStep termf) (M0, none)).1 a b = v := by
  intro l
  induction l with
  | nil =>
    rintro M0 _ ⟨q, hq, _⟩
    exact absurd hq (List.not_mem_nil q)
  | cons q t ih =>
    intro M0 hval hex
    rw [List.foldl_cons, termStep_ok termf M0 q (g q.1 q.2) (hok q.1 q.2)]
    by_cases hex' : ∃ p ∈ t, writesAt p a b
    · exact ih _ (fun p hp => hval p (List.mem_cons_of_mem _ hp)) hex'
    · have hqw : writesAt q a b := by
        rcases hex with ⟨p, hp, hw⟩
        rcases List.mem_cons.mp hp with rfl | hp'
        · exact hw
        · exact absurd ⟨p, hp', hw⟩ hex'
      rw [foldl_termStep_frame termf t _ a b (fun p hp hw => hex' ⟨p, hp, hw⟩)]
      exact (writeEntry_writes M0 q (g q.1 q.2) a b hqw).trans
        (hval q (List.mem_cons_self q t) hqw)

lemma populate_compute (ro : ℝ → ℤ → ℝ → ℤ → ℝ → ℝ) (fmt : ℝ → String)
    (disk : String → Option Mat) (self : interaction_matrix) (kw : Kwargs)
    (h1 : self.matrix = none ∨ kw.cache_matrices = false)
    (h2 : kw.load_matrices = false) :
    populate_interaction_matrix ro fmt disk self kw =
      ({ self with matrix := some (computeLoop (fun i j =>
          interaction_term ro self.type (self.basis.states.getD i default)
            (self.basis.states.getD j default) kw) self.basis.states.length).1 },
       { computed := true,
         saved := (computeLoop (fun i j =>
          interaction_term ro self.type (self.basis.states.getD i default)
            (self.basis.states.getD j default) kw) self.basis.states.length).2.isNone
            && kw.save_matrices,
         error := (computeLoop (fun i j =>
          interaction_term ro self.type (self.basis.states.getD i default)
            (self.basis.states.getD j default) kw) self.basis.states.length).2 }) := by
  simp only [populate_interaction_matrix]
  rw [if_pos h1, if_neg (by simp [h2])]

lemma foldl_termStep_allerr (termf : ℕ → ℕ → Except String ℝ) (e : String)
    (herr : ∀ i j, termf i j = Except.error e) :
    ∀ (l : List (ℕ × ℕ)) (M : Mat), l ≠ [] →
      l.foldl (termStep termf) (M, none) = (M, some e) := by
  intro l M hl
  cases l with
  | nil => exact absurd rfl hl
  | cons q t =>
    rw [List.foldl_cons, termStep_err termf M q e (herr q.1 q.2)]
    exact foldl_termStep_absorb termf t M e

end hsML

namespace hsML

/-- C1: for every kind in {Stark, Zeeman} and every basis, the matrix
produced by a fresh (non-cached, non-loaded) run of
`populate_interaction_matrix` is symmetric: `matrix[i][j] = matrix[j][i]`
for all indices, because the loop computes the upper triangle and mirrors
each entry. -/
theorem populate_matrix_symmetric (ro : ℝ → ℤ → ℝ → ℤ → ℝ → ℝ)
    (fmt : ℝ → String) (disk : String → Option Mat)
    (self : interaction_matrix) (kw : Kwargs)
    (htype : self.type = "stark" ∨ self.type = "zeeman")
    (hfresh : self.matrix = none ∨ kw.cache_matrices = false)
    (hload : kw.load_matrices = false) :
    ∃ M : Mat, (populate_interaction_matrix ro fmt disk self kw).1.matrix = some M ∧
      ∀ i j, M i j = M j i := by
  rw [populate_compute ro fmt disk self kw hfresh hload]
  refine ⟨_, rfl, ?_⟩
  intro i j
  exact foldl_termStep_symm _ _ _ (fun x y => rfl) i j

/-- C1 witness: a concrete fresh Stark builder on a two-state basis yields a
symmetric matrix. -/
theorem populate_matrix_symmetric_witness :
    ∃ M : Mat, (populate_interaction_matrix roEx fmtEx diskEx
        ⟨"stark", basisEx, none⟩ {}).1.matrix = some M ∧
      ∀ i j, M i j = M j i :=
  populate_matrix_symmetric roEx fmtEx diskEx ⟨"stark", basisEx, none⟩ {}
    (Or.inl rfl) (Or.inl rfl) rfl

/-- C2: `stark_interaction` returns exactly 0 whenever `|dL| ≠ 1` or
`|dM| > 1`, and otherwise returns `angular_overlap * radial_overlap`. -/
theorem stark_selection_rule (ro : ℝ → ℤ → ℝ → ℤ → ℝ → ℝ)
    (s1 s2 : QuantumState) (kw : Kwargs) :
    (¬ (|s2.L - s1.L| = 1 ∧ |s2.ML - s1.ML| ≤ 1) →
      stark_interaction ro s1 s2 kw = 0) ∧
    ((|s2.L - s1.L| = 1 ∧ |s2.ML - s1.ML| ≤ 1) →
      stark_interaction ro s1 s2 kw =
        angular_overlap s1.L s2.L s1.ML s2.ML kw *
          ro s1.n_eff s1.L s2.n_eff s2.L kw.p) := by
  constructor
  · intro h
    simp only [stark_interaction]
    rw [if_neg h]
  · intro h
    simp only [stark_interaction]
    rw [if_pos h]

/-- C2 witness: at `dL = 2` the Stark term is 0; at `dL = 1`, `dM = 0` it is
the angular overlap times the radial overlap. -/
theorem stark_selection_rule_witness :
    stark_interaction roEx sEx0 sEx2 {} = 0 ∧
    stark_interaction roEx sEx0 sEx1 {} =
      angular_overlap sEx0.L sEx1.L sEx0.ML sEx1.ML {} *
        roEx sEx0.n_eff sEx0.L sEx1.n_eff sEx1.L ({} : Kwargs).p :=
  ⟨(stark_selection_rule roEx sEx0 sEx2 {}).1 (by decide),
   (stark_selection_rule roEx sEx0 sEx1 {}).2 (by decide)⟩

/-- C6: `zeeman_interaction` returns `s1.ML` on equal states and 0 on
distinct states. -/
theorem zeeman_diagonal (s1 s2 : QuantumState) :
    (s1 = s2 → zeeman_interaction s1 s2 = (s1.ML : ℝ)) ∧
    (s1 ≠ s2 → zeeman_interaction s1 s2 = 0) := by
  constructor
  · intro h
    simp only [zeeman_interaction]
    rw [if_pos h]
  · intro h
    simp only [zeeman_interaction]
    rw [if_neg h]

/-- C6 witness: on a concrete state the Zeeman term is its `ML`; on two
concrete distinct states it is 0. -/
theorem zeeman_diagonal_witness :
    zeeman_interaction sEx1 sEx1 = (sEx1.ML : ℝ) ∧
    zeeman_interaction sEx1 sEx4 = 0 :=
  ⟨(zeeman_diagonal sEx1 sEx1).1 rfl,
   (zeeman_diagonal sEx1 sEx4).2
     (fun h => absurd (congrArg QuantumState.ML h) (by decide))⟩

/-- C7 counterexample: with an unknown kind "foo" and an empty basis, no
exception is raised at all — the builder returns a 0×0 matrix, so the claim
that building always raises `UnsupportedInteraction` fails as stated. -/
theorem unknown_kind_empty_basis_builds :
    (interaction_matrix.init roEx fmtEx diskEx "foo" emptyBasis {}).2.error = none ∧
    (interaction_matrix.init roEx fmtEx diskEx "foo" emptyBasis {}).1.matrix =
      some (fun _ _ => (0 : ℝ)) := by
  rw [interaction_matrix.init,
    populate_compute roEx fmtEx diskEx _ _ (Or.inl rfl) rfl]
  exact ⟨rfl, rfl⟩

/-- C7 (amended): for every kind not equal to "stark" or "zeeman", a
populate call that actually computes (nonempty basis, no disk load) raises
the "not recognised" exception on the first term, nothing is saved, and the
matrix field holds the freshly zeroed matrix with no term written. -/
theorem unknown_kind_error (ro : ℝ → ℤ → ℝ → ℤ → ℝ → ℝ) (fmt : ℝ → String)
    (disk : String → Option Mat) (self : interaction_matrix) (kw : Kwargs)
    (hty1 : ¬ self.type = "stark") (hty2 : ¬ self.type = "zeeman")
    (hne : self.basis.states ≠ [])
    (hfresh : self.matrix = none ∨ kw.cache_matrices = false)
    (hload : kw.load_matrices = false) :
    (populate_interaction_matrix ro fmt disk self kw).2.error =
      some ("Interaction term '" ++ self.type ++ "' is not recognised.") ∧
    (populate_interaction_matrix ro fmt disk self kw).1.matrix =
      some (fun _ _ => (0 : ℝ)) ∧
    (populate_interaction_matrix ro fmt disk self kw).2.saved = false := by
  have herr : ∀ i j : ℕ, interaction_term ro self.type
      (self.basis.states.getD i default) (self.basis.states.getD j default) kw =
      Except.error ("Interaction term '" ++ self.type ++ "' is not recognised.") := by
    intro i j
    simp [interaction_term, hty1, hty2]
  have hN : 0 < self.basis.states.length := List.length_pos.mpr hne
  have hpairs_ne : pairs self.basis.states.length ≠ [] :=
    List.ne_nil_of_mem ((mem_pairs _ (0, 0)).mpr ⟨le_refl 0, hN⟩)
  have hloop : computeLoop (fun i j => interaction_term ro self.type
      (self.basis.states.getD i default) (self.basis.states.getD j default) kw)
      self.basis.states.length =
      ((fun _ _ => 0),
       some ("Interaction term '" ++ self.type ++ "' is not recognised.")) :=
    foldl_termStep_allerr _ _ herr _ _ hpairs_ne
  rw [populate_compute ro fmt disk self kw hfresh hload, hloop]
  exact ⟨rfl, rfl, rfl⟩

/-- C7 amended-claim witness: concrete unknown kind "foo" over a one-state
basis raises the "not recognised" error, saves nothing, and leaves the
just-zeroed matrix. -/
theorem unknown_kind_error_witness :
    (populate_interaction_matrix roEx fmtEx diskEx selfFoo {}).2.error =
      some ("Interaction term '" ++ selfFoo.type ++ "' is not recognised.") ∧
    (populate_interaction_matrix roEx fmtEx diskEx selfFoo {}).1.matrix =
      some (fun _ _ => (0 : ℝ)) ∧
    (populate_interaction_matrix roEx fmtEx diskEx selfFoo {}).2.saved = false :=
  unknown_kind_error roEx fmtEx diskEx selfFoo {} (by decide) (by decide)
    (List.cons_ne_nil sEx0 []) (Or.inl rfl) rfl

/-- C8: a builder already holding a matrix, populated with
`cache_matrices = true`, is returned entirely unchanged: no term is
recomputed, nothing is loaded or saved, no error is raised, and only the
cached-reuse log effect happens. -/
theorem cached_matrix_reused (ro : ℝ → ℤ → ℝ → ℤ → ℝ → ℝ) (fmt : ℝ → String)
    (disk : String → Option Mat) (self : interaction_matrix) (kw : Kwargs)
    (M : Mat) (hheld : self.matrix = some M)
    (hcache : kw.cache_matrices = true) :
    populate_interaction_matrix ro fmt disk self kw =
      (self, { printed_cached := true, loaded := false, computed := false,
               saved := false, error := none }) := by
  have hc : ¬ (self.matrix = none ∨ kw.cache_matrices = false) := by
    rintro (h | h)
    · rw [hheld] at h
      exact Option.noConfusion h
    · rw [hcache] at h
      exact Bool.noConfusion h
  simp only [populate_interaction_matrix]
  rw [if_neg hc]

/-- C8 witness: a concrete builder holding the zero matrix is returned
unchanged with only the log effect. -/
theorem cached_matrix_reused_witness :
    populate_interaction_matrix roEx fmtEx diskEx selfCached {} =
      (selfCached, { printed_cached := true, loaded := false, computed := false,
                     saved := false, error := none }) :=
  cached_matrix_reused roEx fmtEx diskEx selfCached {} (fun _ _ => 0) rfl rfl

/-- C10: the Stark term of any state with itself is exactly 0 (the `dL = 0`
selection rule), so every diagonal entry of a freshly computed Stark matrix
is exactly 0. -/
theorem stark_diagonal_zero (ro : ℝ → ℤ → ℝ → ℤ → ℝ → ℝ) (fmt : ℝ → String)
    (disk : String → Option Mat) (self : interaction_matrix) (kw : Kwargs)
    (htype : self.type = "stark")
    (hfresh : self.matrix = none ∨ kw.cache_matrices = false)
    (hload : kw.load_matrices = false) :
    (∀ (s : QuantumState) (kw' : Kwargs), stark_interaction ro s s kw' = 0) ∧
    ∃ M : Mat, (populate_interaction_matrix ro fmt disk self kw).1.matrix = some M ∧
      ∀ i, i < self.basis.states.length → M i i = 0 := by
  have hdiag : ∀ (s : QuantumState) (kw' : Kwargs), stark_interaction ro s s kw' = 0 := by
    intro s kw'
    simp [stark_interaction]
  refine ⟨hdiag, ?_⟩
  rw [populate_compute ro fmt disk self kw hfresh hload]
  refine ⟨_, rfl, ?_⟩
  intro i hi
  have hok : ∀ a b : ℕ, interaction_term ro self.type
      (self.basis.states.getD a default) (self.basis.states.getD b default) kw =
      Except.ok (stark_interaction ro (self.basis.states.getD a default)
        (self.basis.states.getD b default) kw) := by
    intro a b
    simp [interaction_term, htype]
  refine foldl_termStep_cell _ _ hok 0 i i (pairs self.basis.states.length)
    (fun _ _ => 0) ?_ ?_
  · intro q hq hw
    have h12 : q.1 = i ∧ q.2 = i := by
      rcases hw with ⟨ha, hb⟩ | ⟨ha, hb⟩
      · exact ⟨ha.symm, hb.symm⟩
      · exact ⟨hb.symm, ha.symm⟩
    rw [h12.1, h12.2]
    exact hdiag _ _
  · exact ⟨(i, i), (mem_pairs _ (i, i)).mpr ⟨le_refl i, hi⟩, Or.inl ⟨rfl, rfl⟩⟩

/-- C10 witness: a concrete fresh Stark builder has all-zero diagonal, and
a concrete state has zero Stark term with itself. -/
theorem stark_diagonal_zero_witness :
    (∀ (s : QuantumState) (kw' : Kwargs), stark_interaction roEx s s kw' = 0) ∧
    ∃ M : Mat, (populate_interaction_matrix roEx fmtEx diskEx
        ⟨"stark", basisEx, none⟩ {}).1.matrix = some M ∧
      ∀ i, i < (⟨"stark", basisEx, none⟩ : interaction_matrix).basis.states.length →
        M i i = 0 :=
  stark_diagonal_zero roEx fmtEx diskEx ⟨"stark", basisEx, none⟩ {}
    rfl (Or.inl rfl) rfl

end hsML

namespace hsML

lemma npMod_zero_180 : npMod 0 180 = 0 := by
  have h : ⌊(0 : ℝ) / 180⌋ = 0 := by norm_num
  simp [npMod, h]

lemma npMod_90_180 : npMod 90 180 = 90 := by
  have h : ⌊(90 : ℝ) / 180⌋ = 0 := by
    rw [Int.floor_eq_zero_iff, Set.mem_Ico]
    constructor <;> norm_num
  simp [npMod, h]

lemma angular_overlap_eq (L_1 L_2 M_1 M_2 : ℤ) (kw : Kwargs) :
    angular_overlap L_1 L_2 M_1 M_2 kw =
      (if npMod kw.field_angle 180 = 90 then 0 else
        paraBranch L_1 M_1 (L_2 - L_1) (M_2 - M_1) kw.dM_allow
          (Real.cos (kw.field_angle * (Real.pi / 180)) ^ 2)) +
      (if npMod kw.field_angle 180 = 0 then 0 else
        perpBranch L_1 M_1 (L_2 - L_1) (M_2 - M_1)
          (Real.sin (kw.field_angle * (Real.pi / 180)) ^ 2)) := by
  simp only [angular_overlap]
  by_cases h1 : npMod kw.field_angle 180 = 90 <;>
    by_cases h2 : npMod kw.field_angle 180 = 0 <;>
      simp [h1, h2]

/-- C4: at `field_angle = 0` the angular overlap is exactly the parallel
contribution at full weight (the perpendicular branch is suppressed); at
`field_angle = 90` it is exactly the perpendicular contribution at full
weight; and in general the parallel branch is added only when
`field_angle mod 180 ≠ 90` and the perpendicular branch only when
`field_angle mod 180 ≠ 0`. -/
theorem angular_overlap_field_angle_branches (L_1 L_2 M_1 M_2 : ℤ) (kw : Kwargs) :
    (kw.field_angle = 0 → angular_overlap L_1 L_2 M_1 M_2 kw =
      paraBranch L_1 M_1 (L_2 - L_1) (M_2 - M_1) kw.dM_allow 1) ∧
    (kw.field_angle = 90 → angular_overlap L_1 L_2 M_1 M_2 kw =
      perpBranch L_1 M_1 (L_2 - L_1) (M_2 - M_1) 1) ∧
    angular_overlap L_1 L_2 M_1 M_2 kw =
      (if npMod kw.field_angle 180 = 90 then 0 else
        paraBranch L_1 M_1 (L_2 - L_1) (M_2 - M_1) kw.dM_allow
          (Real.cos (kw.field_angle * (Real.pi / 180)) ^ 2)) +
      (if npMod kw.field_angle 180 = 0 then 0 else
        perpBranch L_1 M_1 (L_2 - L_1) (M_2 - M_1)
          (Real.sin (kw.field_angle * (Real.pi / 180)) ^ 2)) := by
  refine ⟨?_, ?_, angular_overlap_eq L_1 L_2 M_1 M_2 kw⟩
  · intro h
    rw [angular_overlap_eq, h]
    rw [if_neg (by rw [npMod_zero_180]; norm_num), if_pos npMod_zero_180, add_zero]
    congr 1
    rw [zero_mul, Real.cos_zero, one_pow]
  · intro h
    rw [angular_overlap_eq, h]
    rw [if_pos npMod_90_180, if_neg (by rw [npMod_90_180]; norm_num), zero_add]
    congr 1
    rw [show (90 : ℝ) * (Real.pi / 180) = Real.pi / 2 from by ring,
      Real.sin_pi_div_two, one_pow]

/-- C4 witness: at concrete arguments, `field_angle = 0` gives the parallel
contribution alone and `field_angle = 90` the perpendicular alone. -/
theorem angular_overlap_field_angle_branches_witness :
    angular_overlap 0 1 0 0 {} = paraBranch 0 0 (1 - 0) (0 - 0) ([0] : List ℤ) 1 ∧
    angular_overlap 0 1 0 0 { field_angle := 90 } =
      perpBranch 0 0 (1 - 0) (0 - 0) 1 :=
  ⟨(angular_overlap_field_angle_branches 0 1 0 0 {}).1 rfl,
   (angular_overlap_field_angle_branches 0 1 0 0 { field_angle := 90 }).2.1 rfl⟩

lemma paraBranch_eq_zero_of_not_mem (L M dL dM : ℤ) (allow : List ℤ) (f : ℝ)
    (h : dM ∉ allow) : paraBranch L M dL dM allow f = 0 := by
  simp [paraBranch, h]

/-- C5: the perpendicular branch of `angular_overlap` never consults
`dM_allow` and contributes exactly 0 for `dM = 0`, while every parallel
sub-case requires `dM ∈ dM_allow`: with `dM ∉ dM_allow` the whole overlap
reduces to the (still present, fully weighted) perpendicular branch. -/
theorem perp_ungated_para_gated (L_1 L_2 M_1 M_2 : ℤ) (kw : Kwargs) :
    (M_2 - M_1 = 0 →
      perpBranch L_1 M_1 (L_2 - L_1) (M_2 - M_1)
        (Real.sin (kw.field_angle * (Real.pi / 180)) ^ 2) = 0) ∧
    ((M_2 - M_1) ∉ kw.dM_allow →
      paraBranch L_1 M_1 (L_2 - L_1) (M_2 - M_1) kw.dM_allow
        (Real.cos (kw.field_angle * (Real.pi / 180)) ^ 2) = 0) ∧
    ((M_2 - M_1) ∉ kw.dM_allow →
      angular_overlap L_1 L_2 M_1 M_2 kw =
        (if npMod kw.field_angle 180 = 0 then 0 else
          perpBranch L_1 M_1 (L_2 - L_1) (M_2 - M_1)
            (Real.sin (kw.field_angle * (Real.pi / 180)) ^ 2))) := by
  refine ⟨?_, ?_, ?_⟩
  · intro h
    rw [h]
    simp [perpBranch]
  · intro h
    exact paraBranch_eq_zero_of_not_mem _ _ _ _ _ _ h
  · intro h
    rw [angular_overlap_eq, paraBranch_eq_zero_of_not_mem _ _ _ _ _ _ h]
    simp

/-- C5 witness: concrete instances of the three parts, with `dM = 1` not in
the default `dM_allow = [0]`. -/
theorem perp_ungated_para_gated_witness :
    perpBranch 0 0 (1 - 0) (0 - 0)
      (Real.sin (({} : Kwargs).field_angle * (Real.pi / 180)) ^ 2) = 0 ∧
    paraBranch 0 0 (1 - 0) (1 - 0) ({} : Kwargs).dM_allow
      (Real.cos (({} : Kwargs).field_angle * (Real.pi / 180)) ^ 2) = 0 ∧
    angular_overlap 0 1 0 1 {} =
      (if npMod ({} : Kwargs).field_angle 180 = 0 then 0 else
        perpBranch 0 0 (1 - 0) (1 - 0)
          (Real.sin (({} : Kwargs).field_angle * (Real.pi / 180)) ^ 2)) :=
  ⟨(perp_ungated_para_gated 0 1 0 0 {}).1 rfl,
   (perp_ungated_para_gated 0 1 0 1 {}).2.1 (by decide),
   (perp_ungated_para_gated 0 1 0 1 {}).2.2 (by decide)⟩

end hsML

namespace hsML

lemma neg_one_zpow_odd_sum (a b : ℤ) (h : Odd (a + b)) :
    ((-1 : ℝ)) ^ a = -((-1 : ℝ)) ^ b := by
  rcases Int.even_or_odd a with ha | ha
  · have hb : Odd b := by
      rcases ha with ⟨k, hk⟩
      rcases h with ⟨m, hm⟩
      exact ⟨m - k, by omega⟩
    rw [Even.neg_one_zpow ha, Odd.neg_one_zpow hb]
    norm_num
  · have hb : Even b := by
      rcases ha with ⟨k, hk⟩
      rcases h with ⟨m, hm⟩
      exact ⟨m - k, by omega⟩
    rw [Odd.neg_one_zpow ha, Even.neg_one_zpow hb]

lemma paraBranch_1_0 (L M : ℤ) (allow : List ℤ) (f : ℝ) (h : (0 : ℤ) ∈ allow) :
    paraBranch L M 1 0 allow f =
      f * Real.sqrt ((((L : ℝ) + 1) ^ 2 - (M : ℝ) ^ 2) /
        ((2 * (L : ℝ) + 3) * (2 * (L : ℝ) + 1))) := by
  norm_num [paraBranch, h]

lemma paraBranch_neg1_0 (L M : ℤ) (allow : List ℤ) (f : ℝ) (h : (0 : ℤ) ∈ allow) :
    paraBranch L M (-1) 0 allow f =
      f * Real.sqrt (((L : ℝ) ^ 2 - (M : ℝ) ^ 2) /
        ((2 * (L : ℝ) + 1) * (2 * (L : ℝ) - 1))) := by
  norm_num [paraBranch, h]

lemma paraBranch_1_1 (L M : ℤ) (allow : List ℤ) (f : ℝ) (h : (1 : ℤ) ∈ allow) :
    paraBranch L M 1 1 allow f =
      f * (-Real.sqrt ((((L : ℝ) + (M : ℝ) + 2) * ((L : ℝ) + (M : ℝ) + 1)) /
        (2 * (2 * (L : ℝ) + 3) * (2 * (L : ℝ) + 1)))) := by
  norm_num [paraBranch, h]

lemma paraBranch_neg1_1 (L M : ℤ) (allow : List ℤ) (f : ℝ) (h : (1 : ℤ) ∈ allow) :
    paraBranch L M (-1) 1 allow f =
      f * (Real.sqrt ((((L : ℝ) - (M : ℝ)) * ((L : ℝ) - (M : ℝ) - 1)) /
        (2 * (2 * (L : ℝ) + 1) * (2 * (L : ℝ) - 1)))) := by
  norm_num [paraBranch, h]

lemma paraBranch_1_neg1 (L M : ℤ) (allow : List ℤ) (f : ℝ) (h : (-1 : ℤ) ∈ allow) :
    paraBranch L M 1 (-1) allow f =
      f * (Real.sqrt ((((L : ℝ) - (M : ℝ) + 2) * ((L : ℝ) - (M : ℝ) + 1)) /
        (2 * (2 * (L : ℝ) + 3) * (2 * (L : ℝ) + 1)))) := by
  norm_num [paraBranch, h]

lemma paraBranch_neg1_neg1 (L M : ℤ) (allow : List ℤ) (f : ℝ) (h : (-1 : ℤ) ∈ allow) :
    paraBranch L M (-1) (-1) allow f =
      f * (-Real.sqrt ((((L : ℝ) + (M : ℝ)) * ((L : ℝ) + (M : ℝ) - 1)) /
        (2 * (2 * (L : ℝ) + 1) * (2 * (L : ℝ) - 1)))) := by
  norm_num [paraBranch, h]

lemma paraBranch_large (L M dL dM : ℤ) (allow : List ℤ) (f : ℝ)
    (h0 : dM ≠ 0) (h1 : dM ≠ 1) (h2 : dM ≠ -1) :
    paraBranch L M dL dM allow f = 0 := by
  simp [paraBranch, h0, h1, h2]

lemma perpBranch_1_1 (L M : ℤ) (f : ℝ) :
    perpBranch L M 1 1 f =
      f * ((0.5 * ((-1 : ℝ)) ^ (M - 2 * L)) *
        Real.sqrt ((((L : ℝ) + (M : ℝ) + 1) * ((L : ℝ) + (M : ℝ) + 2)) /
          ((2 * (L : ℝ) + 1) * (2 * (L : ℝ) + 3)))) := by
  norm_num [perpBranch]

lemma perpBranch_neg1_1 (L M : ℤ) (f : ℝ) :
    perpBranch L M (-1) 1 f =
      f * (-(0.5 * ((-1 : ℝ)) ^ (-M + 2 * L)) *
        Real.sqrt ((((L : ℝ) - (M : ℝ) - 1) * ((L : ℝ) - (M : ℝ))) /
          ((2 * (L : ℝ) - 1) * (2 * (L : ℝ) + 1)))) := by
  norm_num [perpBranch]

lemma perpBranch_1_neg1 (L M : ℤ) (f : ℝ) :
    perpBranch L M 1 (-1) f =
      f * ((0.5 * ((-1 : ℝ)) ^ (M - 2 * L)) *
        Real.sqrt ((((L : ℝ) - (M : ℝ) + 1) * ((L : ℝ) - (M : ℝ) + 2)) /
          ((2 * (L : ℝ) + 1) * (2 * (L : ℝ) + 3)))) := by
  norm_num [perpBranch]

lemma perpBranch_neg1_neg1 (L M : ℤ) (f : ℝ) :
    perpBranch L M (-1) (-1) f =
      f * (-(0.5 * ((-1 : ℝ)) ^ (-M + 2 * L)) *
        Real.sqrt ((((L : ℝ) + (M : ℝ) - 1) * ((L : ℝ) + (M : ℝ))) /
          ((2 * (L : ℝ) - 1) * (2 * (L : ℝ) + 1)))) := by
  norm_num [perpBranch]

lemma perpBranch_large (L M dL dM : ℤ) (f : ℝ) (h1 : dM ≠ 1) (h2 : dM ≠ -1) :
    perpBranch L M dL dM f = 0 := by
  simp [perpBranch, h1, h2]

lemma mul_sqrt_congr2 (f A B : ℝ) (hAB : A = B) :
    f * Real.sqrt A = f * Real.sqrt B := by
  rw [hAB]

lemma mul_neg_sqrt_congr (f A B : ℝ) (hAB : A = B) :
    f * (-Real.sqrt A) = f * (-Real.sqrt B) := by
  rw [hAB]

lemma mul_sqrt_congr (f c d A B : ℝ) (hc : c = d) (hAB : A = B) :
    f * (c * Real.sqrt A) = f * (d * Real.sqrt B) := by
  rw [hc, hAB]

end hsML

namespace hsML

lemma paraBranch_swap (L_1 L_2 M_1 M_2 : ℤ) (allow : List ℤ) (f : ℝ)
    (hL : L_2 - L_1 = 1 ∨ L_2 - L_1 = -1)
    (hallow : ∀ d : ℤ, d ∈ allow ↔ -d ∈ allow) :
    paraBranch L_1 M_1 (L_2 - L_1) (M_2 - M_1) allow f =
      paraBranch L_2 M_2 (L_1 - L_2) (M_1 - M_2) allow f := by
  have hmem1 : ((1 : ℤ) ∈ allow) ↔ ((-1 : ℤ) ∈ allow) := by
    simpa using hallow 1
  rcases hL with hL | hL
  · obtain rfl : L_2 = L_1 + 1 := by omega
    rw [show L_1 + 1 - L_1 = (1 : ℤ) from by ring,
        show L_1 - (L_1 + 1) = (-1 : ℤ) from by ring]
    by_cases hd0 : M_2 - M_1 = 0
    · have hM : M_2 = M_1 := by omega
      rw [hM, show M_1 - M_1 = (0 : ℤ) from by ring]
      by_cases hmem : (0 : ℤ) ∈ allow
      · rw [paraBranch_1_0 L_1 M_1 allow f hmem,
            paraBranch_neg1_0 (L_1 + 1) M_1 allow f hmem]
        exact mul_sqrt_congr2 _ _ _ (by push_cast; ring)
      · rw [paraBranch_eq_zero_of_not_mem _ _ _ _ _ _ hmem,
            paraBranch_eq_zero_of_not_mem _ _ _ _ _ _ hmem]
    · by_cases hd1 : M_2 - M_1 = 1
      · obtain rfl : M_2 = M_1 + 1 := by omega
        rw [show M_1 + 1 - M_1 = (1 : ℤ) from by ring,
            show M_1 - (M_1 + 1) = (-1 : ℤ) from by ring]
        by_cases hmem : (1 : ℤ) ∈ allow
        · rw [paraBranch_1_1 L_1 M_1 allow f hmem,
              paraBranch_neg1_neg1 (L_1 + 1) (M_1 + 1) allow f (hmem1.mp hmem)]
          exact mul_neg_sqrt_congr _ _ _ (by push_cast; ring)
        · rw [paraBranch_eq_zero_of_not_mem _ _ _ _ _ _ hmem,
              paraBranch_eq_zero_of_not_mem _ _ _ _ _ _
                (fun hc => hmem (hmem1.mpr hc))]
      · by_cases hd2 : M_2 - M_1 = -1
        · obtain rfl : M_2 = M_1 - 1 := by omega
          rw [show M_1 - 1 - M_1 = (-1 : ℤ) from by ring,
              show M_1 - (M_1 - 1) = (1 : ℤ) from by ring]
          by_cases hmem : (-1 : ℤ) ∈ allow
          · rw [paraBranch_1_neg1 L_1 M_1 allow f hmem,
                paraBranch_neg1_1 (L_1 + 1) (M_1 - 1) allow f (hmem1.mpr hmem)]
            exact mul_sqrt_congr2 _ _ _ (by push_cast; ring)
          · rw [paraBranch_eq_zero_of_not_mem _ _ _ _ _ _ hmem,
                paraBranch_eq_zero_of_not_mem _ _ _ _ _ _
                  (fun hc => hmem (hmem1.mp hc))]
        · rw [paraBranch_large _ _ _ _ _ _ hd0 hd1 hd2,
              paraBranch_large _ _ _ _ _ _ (by omega) (by omega) (by omega)]
  · obtain rfl : L_2 = L_1 - 1 := by omega
    rw [show L_1 - 1 - L_1 = (-1 : ℤ) from by ring,
        show L_1 - (L_1 - 1) = (1 : ℤ) from by ring]
    by_cases hd0 : M_2 - M_1 = 0
    · have hM : M_2 = M_1 := by omega
      rw [hM, show M_1 - M_1 = (0 : ℤ) from by ring]
      by_cases hmem : (0 : ℤ) ∈ allow
      · rw [paraBranch_neg1_0 L_1 M_1 allow f hmem,
            paraBranch_1_0 (L_1 - 1) M_1 allow f hmem]
        exact mul_sqrt_congr2 _ _ _ (by push_cast; ring)
      · rw [paraBranch_eq_zero_of_not_mem _ _ _ _ _ _ hmem,
            paraBranch_eq_zero_of_not_mem _ _ _ _ _ _ hmem]
    · by_cases hd1 : M_2 - M_1 = 1
      · obtain rfl : M_2 = M_1 + 1 := by omega
        rw [show M_1 + 1 - M_1 = (1 : ℤ) from by ring,
            show M_1 - (M_1 + 1) = (-1 : ℤ) from by ring]
        by_cases hmem : (1 : ℤ) ∈ allow
        · rw [paraBranch_neg1_1 L_1 M_1 allow f hmem,
              paraBranch_1_neg1 (L_1 - 1) (M_1 + 1) allow f (hmem1.mp hmem)]
          exact mul_sqrt_congr2 _ _ _ (by push_cast; ring)
        · rw [paraBranch_eq_zero_of_not_mem _ _ _ _ _ _ hmem,
              paraBranch_eq_zero_of_not_mem _ _ _ _ _ _
                (fun hc => hmem (hmem1.mpr hc))]
      · by_cases hd2 : M_2 - M_1 = -1
        · obtain rfl : M_2 = M_1 - 1 := by omega
          rw [show M_1 - 1 - M_1 = (-1 : ℤ) from by ring,
              show M_1 - (M_1 - 1) = (1 : ℤ) from by ring]
          by_cases hmem : (-1 : ℤ) ∈ allow
          · rw [paraBranch_neg1_neg1 L_1 M_1 allow f hmem,
                paraBranch_1_1 (L_1 - 1) (M_1 - 1) allow f (hmem1.mpr hmem)]
            exact mul_neg_sqrt_congr _ _ _ (by push_cast; ring)
          · rw [paraBranch_eq_zero_of_not_mem _ _ _ _ _ _ hmem,
                paraBranch_eq_zero_of_not_mem _ _ _ _ _ _
                  (fun hc => hmem (hmem1.mp hc))]
        · rw [paraBranch_large _ _ _ _ _ _ hd0 hd1 hd2,
              paraBranch_large _ _ _ _ _ _ (by omega) (by omega) (by omega)]

lemma perpBranch_swap (L_1 L_2 M_1 M_2 : ℤ) (f : ℝ)
    (hL : L_2 - L_1 = 1 ∨ L_2 - L_1 = -1) :
    perpBranch L_1 M_1 (L_2 - L_1) (M_2 - M_1) f =
      perpBranch L_2 M_2 (L_1 - L_2) (M_1 - M_2) f := by
  rcases hL with hL | hL
  · obtain rfl : L_2 = L_1 + 1 := by omega
    rw [show L_1 + 1 - L_1 = (1 : ℤ) from by ring,
        show L_1 - (L_1 + 1) = (-1 : ℤ) from by ring]
    by_cases hd1 : M_2 - M_1 = 1
    · obtain rfl : M_2 = M_1 + 1 := by omega
      rw [show M_1 + 1 - M_1 = (1 : ℤ) from by ring,
          show M_1 - (M_1 + 1) = (-1 : ℤ) from by ring]
      rw [perpBranch_1_1 L_1 M_1 f, perpBranch_neg1_neg1 (L_1 + 1) (M_1 + 1) f]
      refine mul_sqrt_congr _ _ _ _ _ ?_ (by push_cast; ring)
      rw [neg_one_zpow_odd_sum (M_1 - 2 * L_1) (-(M_1 + 1) + 2 * (L_1 + 1))
        ⟨0, by ring⟩]
      ring
    · by_cases hd2 : M_2 - M_1 = -1
      · obtain rfl : M_2 = M_1 - 1 := by omega
        rw [show M_1 - 1 - M_1 = (-1 : ℤ) from by ring,
            show M_1 - (M_1 - 1) = (1 : ℤ) from by ring]
        rw [perpBranch_1_neg1 L_1 M_1 f, perpBranch_neg1_1 (L_1 + 1) (M_1 - 1) f]
        refine mul_sqrt_congr _ _ _ _ _ ?_ (by push_cast; ring)
        rw [neg_one_zpow_odd_sum (M_1 - 2 * L_1) (-(M_1 - 1) + 2 * (L_1 + 1))
          ⟨1, by ring⟩]
        ring
      · rw [perpBranch_large _ _ _ _ _ hd1 hd2,
            perpBranch_large _ _ _ _ _ (by omega) (by omega)]
  · obtain rfl : L_2 = L_1 - 1 := by omega
    rw [show L_1 - 1 - L_1 = (-1 : ℤ) from by ring,
        show L_1 - (L_1 - 1) = (1 : ℤ) from by ring]
    by_cases hd1 : M_2 - M_1 = 1
    · obtain rfl : M_2 = M_1 + 1 := by omega
      rw [show M_1 + 1 - M_1 = (1 : ℤ) from by ring,
          show M_1 - (M_1 + 1) = (-1 : ℤ) from by ring]
      rw [perpBranch_neg1_1 L_1 M_1 f, perpBranch_1_neg1 (L_1 - 1) (M_1 + 1) f]
      refine mul_sqrt_congr _ _ _ _ _ ?_ (by push_cast; ring)
      rw [neg_one_zpow_odd_sum (-M_1 + 2 * L_1) (M_1 + 1 - 2 * (L_1 - 1))
        ⟨1, by ring⟩]
      ring
    · by_cases hd2 : M_2 - M_1 = -1
      · obtain rfl : M_2 = M_1 - 1 := by omega
        rw [show M_1 - 1 - M_1 = (-1 : ℤ) from by ring,
            show M_1 - (M_1 - 1) = (1 : ℤ) from by ring]
        rw [perpBranch_neg1_neg1 L_1 M_1 f, perpBranch_1_1 (L_1 - 1) (M_1 - 1) f]
        refine mul_sqrt_congr _ _ _ _ _ ?_ (by push_cast; ring)
        rw [neg_one_zpow_odd_sum (-M_1 + 2 * L_1) (M_1 - 1 - 2 * (L_1 - 1))
          ⟨0, by ring⟩]
        ring
      · rw [perpBranch_large _ _ _ _ _ hd1 hd2,
            perpBranch_large _ _ _ _ _ (by omega) (by omega)]

lemma angular_overlap_swap (L_1 L_2 M_1 M_2 : ℤ) (kw : Kwargs)
    (hL : L_2 - L_1 = 1 ∨ L_2 - L_1 = -1)
    (hallow : ∀ d : ℤ, d ∈ kw.dM_allow ↔ -d ∈ kw.dM_allow) :
    angular_overlap L_1 L_2 M_1 M_2 kw = angular_overlap L_2 L_1 M_2 M_1 kw := by
  rw [angular_overlap_eq, angular_overlap_eq,
    paraBranch_swap L_1 L_2 M_1 M_2 kw.dM_allow _ hL hallow,
    perpBranch_swap L_1 L_2 M_1 M_2 _ hL]

end hsML

namespace hsML

/-- C3: the per-pair formulas are symmetric under swapping the two state
arguments, as the upper-triangle-then-mirror assembly requires: for
`|dL| = 1`, `|dM| ≤ 1` and a `dM_allow` set closed under negation,
`angular_overlap` is invariant under the swap, and hence, for a symmetric
`radial_overlap` collaborator, so is `stark_interaction`. -/
theorem stark_swap_symmetric :
    (∀ (L_1 L_2 M_1 M_2 : ℤ) (kw : Kwargs), |L_2 - L_1| = 1 → |M_2 - M_1| ≤ 1 →
      (∀ d : ℤ, d ∈ kw.dM_allow ↔ -d ∈ kw.dM_allow) →
      angular_overlap L_1 L_2 M_1 M_2 kw = angular_overlap L_2 L_1 M_2 M_1 kw) ∧
    (∀ ro : ℝ → ℤ → ℝ → ℤ → ℝ → ℝ,
      (∀ (n1 : ℝ) (l1 : ℤ) (n2 : ℝ) (l2 : ℤ) (p : ℝ),
        ro n1 l1 n2 l2 p = ro n2 l2 n1 l1 p) →
      ∀ (s1 s2 : QuantumState) (kw : Kwargs),
        (∀ d : ℤ, d ∈ kw.dM_allow ↔ -d ∈ kw.dM_allow) →
        stark_interaction ro s1 s2 kw = stark_interaction ro s2 s1 kw) := by
  constructor
  · intro L_1 L_2 M_1 M_2 kw hL _ hallow
    exact angular_overlap_swap L_1 L_2 M_1 M_2 kw
      ((abs_eq (by norm_num : (0 : ℤ) ≤ 1)).mp hL) hallow
  · intro ro hro s1 s2 kw hallow
    by_cases hsel : |s2.L - s1.L| = 1 ∧ |s2.ML - s1.ML| ≤ 1
    · have hsel' : |s1.L - s2.L| = 1 ∧ |s1.ML - s2.ML| ≤ 1 :=
        ⟨by rw [abs_sub_comm]; exact hsel.1, by rw [abs_sub_comm]; exact hsel.2⟩
      simp only [stark_interaction]
      rw [if_pos hsel, if_pos hsel']
      rw [angular_overlap_swap s1.L s2.L s1.ML s2.ML kw
        ((abs_eq (by norm_num : (0 : ℤ) ≤ 1)).mp hsel.1) hallow]
      rw [hro s1.n_eff s1.L s2.n_eff s2.L kw.p]
    · have hsel' : ¬ (|s1.L - s2.L| = 1 ∧ |s1.ML - s2.ML| ≤ 1) := fun hc =>
        hsel ⟨by rw [abs_sub_comm]; exact hc.1, by rw [abs_sub_comm]; exact hc.2⟩
      simp only [stark_interaction]
      rw [if_neg hsel, if_neg hsel']

/-- C3 witness: concrete swap symmetry of the angular overlap at
`(L, M): (0,0) ↔ (1,0)` with the default configuration, and of the Stark
term with a constant (hence symmetric) radial overlap. -/
theorem stark_swap_symmetric_witness :
    angular_overlap 0 1 0 0 {} = angular_overlap 1 0 0 0 {} ∧
    stark_interaction roEx sEx0 sEx1 {} = stark_interaction roEx sEx1 sEx0 {} := by
  have hallow : ∀ d : ℤ, d ∈ ({} : Kwargs).dM_allow ↔ -d ∈ ({} : Kwargs).dM_allow := by
    intro d
    show d ∈ ([0] : List ℤ) ↔ -d ∈ ([0] : List ℤ)
    simp only [List.mem_singleton]
    omega
  exact ⟨stark_swap_symmetric.1 0 1 0 0 {} (by decide) (by decide) hallow,
         stark_swap_symmetric.2 roEx (fun _ _ _ _ _ => rfl) sEx0 sEx1 {} hallow⟩

end hsML

namespace hsML

/-- C9: save, load and existence check all derive the same cache key
`<type>_n=<n_min>-<n_max>_L_max=<L_max>_S=<S>_ML=<ML>_ML_max=<ML_max>`,
with `_angle_<field_angle>` appended exactly when the interaction type is
Stark; load and check append `.npz` themselves, and `np.savez_compressed`
appends `.npz` to the save name whenever it does not already end in it, so
all three operations address the same `.npz` file. -/
theorem cache_filename_spec (fmt : ℝ → String) (self : interaction_matrix)
    (kw : Kwargs) :
    check_matrix_name fmt self kw = load_matrix_name fmt self kw ∧
    load_matrix_name fmt self kw = save_matrix_name fmt self kw ++ ".npz" ∧
    (".npz".data.isSuffixOf (save_matrix_name fmt self kw).data = false →
      savezName (save_matrix_name fmt self kw) = load_matrix_name fmt self kw) ∧
    (self.type = "stark" →
      load_matrix_name fmt self kw =
        self.type ++ "_" ++ self.filename ++ "_angle_" ++ fmt kw.field_angle
          ++ ".npz") ∧
    (¬ self.type = "stark" →
      load_matrix_name fmt self kw =
        self.type ++ "_" ++ self.filename ++ ".npz") := by
  refine ⟨rfl, rfl, ?_, ?_, ?_⟩
  · intro h
    simp only [savezName]
    rw [if_neg (by simp [h])]
    rfl
  · intro h
    simp only [load_matrix_name]
    rw [if_pos h]
  · intro h
    simp only [load_matrix_name]
    rw [if_neg h]

/-- C9 witness: for a concrete Stark builder, `np.savez_compressed` yields
exactly the file name that load and check later use, and the name has the
documented shape with the angle suffix. -/
theorem cache_filename_spec_witness :
    savezName (save_matrix_name fmtEx selfCached {}) =
      load_matrix_name fmtEx selfCached {} ∧
    load_matrix_name fmtEx selfCached {} =
      "stark" ++ "_" ++ selfCached.filename ++ "_angle_" ++ "0.0" ++ ".npz" :=
  ⟨(cache_filename_spec fmtEx selfCached {}).2.2.1 (by decide),
   (cache_filename_spec fmtEx selfCached {}).2.2.2.1 rfl⟩

end hsML
